import Mathlib

/-!
Verification of the plane-wave field algebra module `odak/wave/parameters.py`.

The module is a stateless library of closed-form formulas over real and
complex numbers.  We embed each Python function as a Lean function over
`ℝ` and `ℂ`, translating the source expressions directly:

* `propagate_plane_waves field opd k w t = field * exp (I * (-w*t + opd*k))`
* `electric_field_per_plane_wave amplitude opd k phase w t
     = amplitude * exp (I * (-w*t + opd*k + phase)) / opd^2`
* `calculate_phase field deg` is `np.angle`, i.e. the principal argument
  (two-argument arctangent of imaginary and real parts), scaled to degrees
  when `deg` is true
* `calculate_amplitude field = |field|`, `calculate_intensity field = |field|^2`
* `wavenumber wavelength = 2*π / wavelength`
* `rotationspeed wavelength c = 2*π*(c*wavelength)` (the source multiplies
  by the wavelength; Python default `c = 3*10^11` is passed explicitly here)

Division by zero is a floating-point fault in the source platform; where a
claim is about that fault we use an `Option`-valued variant in which `none`
models the non-finite fault value propagating to the caller.
-/

namespace Odak

/-- Translation of `propagate_plane_waves(field, opd, k, w=0, t=0)`:
`field * np.exp(1j*(-w*t+opd*k))`. -/
noncomputable def propagate_plane_waves (field : ℂ) (opd k w t : ℝ) : ℂ :=
  field * Complex.exp (Complex.I * ((-w * t + opd * k : ℝ) : ℂ))

/-- Translation of `electric_field_per_plane_wave(amplitude, opd, k, phase=0, w=0, t=0)`:
`amplitude*np.exp(1j*(-w*t+opd*k+phase))/opd**2`. -/
noncomputable def electric_field_per_plane_wave
    (amplitude opd k phase w t : ℝ) : ℂ :=
  (amplitude : ℂ) * Complex.exp (Complex.I * ((-w * t + opd * k + phase : ℝ) : ℂ))
    / ((opd ^ 2 : ℝ) : ℂ)

/-- The same synthesis formula with the division-by-zero fault made explicit:
when `opd = 0` the platform divides by zero and a non-finite fault value
(infinity or NaN) propagates to the caller; `none` models that fault value,
and no exception is raised. -/
noncomputable def electric_field_per_plane_wave_checked
    (amplitude opd k phase w t : ℝ) : Option ℂ :=
  if opd ^ 2 = 0 then none
  else some (electric_field_per_plane_wave amplitude opd k phase w t)

/-- Translation of `calculate_phase(field, deg=False)`: `np.angle(field, deg=deg)`,
the principal argument, in degrees when `deg` is true. -/
noncomputable def calculate_phase (field : ℂ) (deg : Bool) : ℝ :=
  if deg then Complex.arg field * 180 / Real.pi else Complex.arg field

/-- Translation of `calculate_amplitude(field)`: `np.abs(field)`. -/
noncomputable def calculate_amplitude (field : ℂ) : ℝ :=
  Complex.abs field

/-- Translation of `calculate_intensity(field)`: `np.abs(field)**2`. -/
noncomputable def calculate_intensity (field : ℂ) : ℝ :=
  Complex.abs field ^ 2

/-- Translation of `wavenumber(wavelength)`: `2*np.pi/wavelength`. -/
noncomputable def wavenumber (wavelength : ℝ) : ℝ :=
  2 * Real.pi / wavelength

/-- Translation of `rotationspeed(wavelength, c=3*10**11)`:
`f = c*wavelength; w = 2*np.pi*f`.  The Python default argument
`c = 3*10^11` is passed explicitly by callers of this embedding. -/
noncomputable def rotationspeed (wavelength c : ℝ) : ℝ :=
  let f := c * wavelength
  2 * Real.pi * f

/-- C1: `rotation_speed(wavelength, c)` returns `w = 2π·f` with
`f = c·wavelength`, that is `w = 2π·c·wavelength` — the source multiplies by
the wavelength rather than dividing; with the default speed `c = 3·10^11`
the result is `2π·3·10^11·wavelength`. -/
theorem rotationspeed_eq (wavelength c : ℝ) :
    rotationspeed wavelength c = 2 * Real.pi * c * wavelength ∧
    rotationspeed wavelength (3 * 10 ^ 11) =
      2 * Real.pi * (3 * 10 ^ 11) * wavelength := by
  constructor <;> · simp only [rotationspeed]; ring

/-- C3: propagation preserves magnitude — the multiplier
`exp (I * (-w*t + opd*k))` has modulus `1` for real arguments, so
`|propagate_plane_waves field opd k w t| = |field|`. -/
theorem propagate_plane_waves_abs (field : ℂ) (opd k w t : ℝ) :
    Complex.abs (propagate_plane_waves field opd k w t) = Complex.abs field := by
  simp [propagate_plane_waves, Complex.abs_exp]

/-- C7: with `opd = 0`, `w = 0` and `t = 0` the exponent is `0`, the
multiplier is `1`, and propagation is the identity:
`propagate_plane_waves field 0 k 0 0 = field`. -/
theorem propagate_plane_waves_id (field : ℂ) (k : ℝ) :
    propagate_plane_waves field 0 k 0 0 = field := by
  simp [propagate_plane_waves]

/-- C9: propagation composes additively over the optical path difference:
propagating by `opd1` and then by `opd2` equals propagating by
`opd1 + opd2` (with `w = 0`, `t = 0`). -/
theorem propagate_plane_waves_add (field : ℂ) (opd1 opd2 k : ℝ) :
    propagate_plane_waves (propagate_plane_waves field opd1 k 0 0) opd2 k 0 0 =
      propagate_plane_waves field (opd1 + opd2) k 0 0 := by
  simp only [propagate_plane_waves, mul_assoc, ← Complex.exp_add, ← mul_add]
  congr 2
  push_cast
  ring

/-- C4: for `0 < wavelength1 < wavelength2`, `wavenumber` is the formula
`2π / wavelength`, its value is strictly positive, and it is strictly
monotonically decreasing in the wavelength. -/
theorem wavenumber_spec (wavelength1 wavelength2 : ℝ)
    (h1 : 0 < wavelength1) (h12 : wavelength1 < wavelength2) :
    wavenumber wavelength1 = 2 * Real.pi / wavelength1 ∧
    0 < wavenumber wavelength1 ∧
    wavenumber wavelength2 < wavenumber wavelength1 := by
  refine ⟨rfl, ?_, ?_⟩
  · exact div_pos Real.two_pi_pos h1
  · exact div_lt_div_of_pos_left Real.two_pi_pos h1 h12

/-- Witness for C4 at the concrete wavelengths `1` and `2`. -/
theorem wavenumber_spec_witness :
    (0 : ℝ) < 1 ∧ (1 : ℝ) < 2 ∧
    (wavenumber 1 = 2 * Real.pi / 1 ∧ 0 < wavenumber 1 ∧
      wavenumber 2 < wavenumber 1) :=
  ⟨by norm_num, by norm_num, wavenumber_spec 1 2 (by norm_num) (by norm_num)⟩

/-- C5: for every nonzero complex field value, `calculate_phase` returns the
principal argument, lying in `(-π, π]` when `deg` is false and in
`(-180, 180]` when `deg` is true. -/
theorem calculate_phase_range (field : ℂ) (h : field ≠ 0) :
    calculate_phase field false = Complex.arg field ∧
    (-Real.pi < calculate_phase field false ∧
      calculate_phase field false ≤ Real.pi) ∧
    (-180 < calculate_phase field true ∧ calculate_phase field true ≤ 180) := by
  have hpi : 0 < Real.pi := Real.pi_pos
  have hlo : -Real.pi < Complex.arg field := Complex.neg_pi_lt_arg field
  have hhi : Complex.arg field ≤ Real.pi := Complex.arg_le_pi field
  refine ⟨rfl, ⟨hlo, hhi⟩, ?_, ?_⟩
  · simp only [calculate_phase, if_true]
    rw [lt_div_iff₀ hpi]
    nlinarith
  · simp only [calculate_phase, if_true]
    rw [div_le_iff₀ hpi]
    nlinarith

/-- Witness for C5 at the concrete field `I`, whose argument is `π/2`. -/
theorem calculate_phase_range_witness :
    Complex.I ≠ 0 ∧
    (calculate_phase Complex.I false = Complex.arg Complex.I ∧
      (-Real.pi < calculate_phase Complex.I false ∧
        calculate_phase Complex.I false ≤ Real.pi) ∧
      (-180 < calculate_phase Complex.I true ∧
        calculate_phase Complex.I true ≤ 180)) :=
  ⟨Complex.I_ne_zero, calculate_phase_range Complex.I Complex.I_ne_zero⟩

/-- C6: for every complex field value, the intensity is the square of the
amplitude, both are nonnegative, and the amplitude is the square root of
the intensity. -/
theorem intensity_amplitude_spec (x : ℂ) :
    calculate_intensity x = calculate_amplitude x ^ 2 ∧
    0 ≤ calculate_amplitude x ∧
    0 ≤ calculate_intensity x ∧
    calculate_amplitude x = Real.sqrt (calculate_intensity x) := by
  have h0 : 0 ≤ Complex.abs x := Complex.abs.nonneg x
  refine ⟨rfl, h0, ?_, ?_⟩
  · exact sq_nonneg _
  · rw [calculate_amplitude, calculate_intensity, Real.sqrt_sq h0]

/-- C8: calling the synthesis function with `opd = 0` divides by zero, so a
non-finite fault value (modelled by `none`) propagates to the caller for
every choice of the remaining arguments, rather than a handled error. -/
theorem electric_field_opd_zero_fault (amplitude k phase w t : ℝ) :
    electric_field_per_plane_wave_checked amplitude 0 k phase w t = none := by
  simp [electric_field_per_plane_wave_checked]

/-- C10: synthesis factors through propagation — for `opd ≠ 0`,
`electric_field_per_plane_wave amplitude opd k phase w t` equals
`propagate_plane_waves` applied to the initial field
`amplitude * exp (I*phase) / opd^2` with the same `opd`, `k`, `w`, `t`. -/
theorem electric_field_eq_propagate (amplitude opd k phase w t : ℝ)
    (hopd : opd ≠ 0) :
    electric_field_per_plane_wave amplitude opd k phase w t =
      propagate_plane_waves
        ((amplitude : ℂ) * Complex.exp (Complex.I * ((phase : ℝ) : ℂ)) /
          ((opd ^ 2 : ℝ) : ℂ)) opd k w t := by
  simp only [electric_field_per_plane_wave, propagate_plane_waves,
    div_mul_eq_mul_div, mul_assoc, ← Complex.exp_add, ← mul_add]
  congr 3
  push_cast
  ring

/-- Witness for C10 at `amplitude = 2`, `opd = 1`, `k = 0`, `phase = 0`,
`w = 0`, `t = 0`. -/
theorem electric_field_eq_propagate_witness :
    (1 : ℝ) ≠ 0 ∧
    electric_field_per_plane_wave 2 1 0 0 0 0 =
      propagate_plane_waves
        (((2 : ℝ) : ℂ) * Complex.exp (Complex.I * (((0 : ℝ) : ℝ) : ℂ)) /
          (((1 : ℝ) ^ 2 : ℝ) : ℂ)) 1 0 0 0 :=
  ⟨by norm_num, electric_field_eq_propagate 2 1 0 0 0 0 (by norm_num)⟩

/-- Counterexample to C2 as stated: at `amplitude = -1`, `opd = 1`,
`k = phase = w = t = 0` the field is `-1`, whose magnitude is `1`, not
`amplitude / opd^2 = -1`. -/
theorem electric_field_abs_neg_amplitude :
    ¬ (Complex.abs (electric_field_per_plane_wave (-1) 1 0 0 0 0) =
        (-1) / 1 ^ 2) := by
  have hv : electric_field_per_plane_wave (-1) 1 0 0 0 0 = -1 := by
    simp [electric_field_per_plane_wave]
  rw [hv]
  norm_num

/-- C2 (amended): for positive `amplitude` and nonzero `opd`, the field
returned by the synthesis function equals
`amplitude * exp (I*(-w*t + opd*k + phase)) / opd^2`, its magnitude is
`amplitude / opd^2`, and its phase is `-w*t + opd*k + phase` modulo `2π`
(stated as an equality of angles in `ℝ / 2πℤ`). -/
theorem electric_field_per_plane_wave_spec (amplitude opd k phase w t : ℝ)
    (hopd : opd ≠ 0) (hamp : 0 < amplitude) :
    electric_field_per_plane_wave amplitude opd k phase w t =
      (amplitude : ℂ) *
        Complex.exp (Complex.I * ((-w * t + opd * k + phase : ℝ) : ℂ)) /
        ((opd ^ 2 : ℝ) : ℂ) ∧
    Complex.abs (electric_field_per_plane_wave amplitude opd k phase w t) =
      amplitude / opd ^ 2 ∧
    (Complex.arg (electric_field_per_plane_wave amplitude opd k phase w t) :
        Real.Angle) =
      ((-w * t + opd * k + phase : ℝ) : Real.Angle) := by
  have hsq : (0 : ℝ) < opd ^ 2 := by positivity
  have hr : 0 < amplitude / opd ^ 2 := div_pos hamp hsq
  refine ⟨rfl, ?_, ?_⟩
  · rw [electric_field_per_plane_wave, map_div₀, map_mul, Complex.abs_ofReal,
      Complex.abs_ofReal, abs_of_pos hamp, abs_of_pos hsq, mul_comm Complex.I,
      Complex.abs_exp_ofReal_mul_I, mul_one]
  · have hfield : electric_field_per_plane_wave amplitude opd k phase w t =
        ((amplitude / opd ^ 2 : ℝ) : ℂ) *
          (Real.cos (-w * t + opd * k + phase) +
            Real.sin (-w * t + opd * k + phase) * Complex.I) := by
      rw [electric_field_per_plane_wave, mul_comm Complex.I, Complex.exp_mul_I,
        ← Complex.ofReal_cos, ← Complex.ofReal_sin]
      push_cast
      ring
    rw [hfield]
    have h := Complex.arg_mul_cos_add_sin_mul_I_coe_angle hr
      ((-w * t + opd * k + phase : ℝ) : Real.Angle)
    rw [Real.Angle.cos_coe, Real.Angle.sin_coe] at h
    exact h

/-- Witness for the amended C2 at `amplitude = 2`, `opd = 1`, `k = 0`,
`phase = 0`, `w = 0`, `t = 0`. -/
theorem electric_field_per_plane_wave_spec_witness :
    (1 : ℝ) ≠ 0 ∧ (0 : ℝ) < 2 ∧
    (electric_field_per_plane_wave 2 1 0 0 0 0 =
        ((2 : ℝ) : ℂ) *
          Complex.exp (Complex.I * ((-(0 : ℝ) * 0 + 1 * 0 + 0 : ℝ) : ℂ)) /
          (((1 : ℝ) ^ 2 : ℝ) : ℂ) ∧
      Complex.abs (electric_field_per_plane_wave 2 1 0 0 0 0) = 2 / 1 ^ 2 ∧
      (Complex.arg (electric_field_per_plane_wave 2 1 0 0 0 0) : Real.Angle) =
        ((-(0 : ℝ) * 0 + 1 * 0 + 0 : ℝ) : Real.Angle)) :=
  ⟨by norm_num, by norm_num,
    electric_field_per_plane_wave_spec 2 1 0 0 0 0 (by norm_num) (by norm_num)⟩

end Odak
